import Mathlib

/-!
Shallow embedding of the lexical retrieval core of this repository:
`scripts/retrieval_scoring.py` (tokenizer, query normalizer, intent
classifier, record scorer, ranker), the interactive scorer of
`scripts/query_index.py`, and the deduplication step of
`scripts/eval_retrieval.py`.  Strings are modelled as Lean `String`s,
Python floats as exact rationals (`ℚ`), Python `set`s of strings as
`Finset String`.
-/

/-- Python `str.lower` restricted to ASCII (all corpus tokens are ASCII). -/
def lowerChar (c : Char) : Char :=
  if 'A' ≤ c ∧ c ≤ 'Z' then Char.ofNat (c.toNat + 32) else c

/-- Python `text.lower()`. -/
def pyLower (s : String) : String := ⟨s.data.map lowerChar⟩

/-- Character class of the token regex `[a-zA-Z0-9_]+`. -/
def isTokChar (c : Char) : Bool :=
  ('a' ≤ c && c ≤ 'z') || ('A' ≤ c && c ≤ 'Z') || ('0' ≤ c && c ≤ '9') || c == '_'

/-- Maximal runs of token characters, with an accumulator for the current
run (kept reversed).  Mirrors `TOKEN_RE.findall`. -/
def tokensAux : List Char → List Char → List (List Char)
  | [], cur => if cur = [] then [] else [cur.reverse]
  | c :: rest, cur =>
    if isTokChar c then tokensAux rest (c :: cur)
    else if cur = [] then tokensAux rest []
    else cur.reverse :: tokensAux rest []

/-- `tokenize` of `retrieval_scoring.py` / `query_index.py`:
`TOKEN_RE.findall(text.lower())`. -/
def tokenize (text : String) : List String :=
  (tokensAux (text.data.map lowerChar) []).map (fun cs => ⟨cs⟩)

/-- Python `" ".join(...)`. -/
def joinSpace : List String → String
  | [] => ""
  | [s] => s
  | s :: t :: rest => s ++ " " ++ joinSpace (t :: rest)

/-- Does the first list lead the second one (element-wise equality)? -/
def startsL : List Char → List Char → Bool
  | [], _ => true
  | _ :: _, [] => false
  | a :: as, b :: bs => a == b && startsL as bs

/-- Python `needle in hay` substring test, on character lists. -/
def subL : List Char → List Char → Bool
  | [], needle => needle.isEmpty
  | c :: t, needle => startsL needle (c :: t) || subL t needle

/-- Python `needle in hay` substring test on strings. -/
def containsSub (hay needle : String) : Bool := subL hay.data needle.data

/-- Python `s.startswith(pre)`. -/
def strStarts (s pre : String) : Bool := startsL pre.data s.data

/-- Python `s.endswith(suf)`. -/
def strEnds (s suf : String) : Bool := startsL suf.data.reverse s.data.reverse

/-- Python whitespace characters recognized by `str.strip()` (ASCII). -/
def isPyWS (c : Char) : Bool :=
  c == ' ' || c == '\t' || c == '\n' || c == '\r' || c == '\x0b' || c == '\x0c'

/-- Drop characters satisfying `p` from both ends of a list. -/
def stripL (p : Char → Bool) (cs : List Char) : List Char :=
  ((cs.dropWhile p).reverse.dropWhile p).reverse

/-- Python `s.strip()`. -/
def pyStrip (s : String) : String := ⟨stripL isPyWS s.data⟩

/-- Python `s.strip('/')`. -/
def stripSlashes (s : String) : String := ⟨stripL (fun c => c == '/') s.data⟩

/-- Python `a or b` on strings (empty string is falsy). -/
def pyOrS (a b : String) : String := if a = "" then b else a

/-- One retrievable record, the shape consumed from ingestion.  Absent
fields are modelled as their Python defaults (`""` / `[]`). -/
structure Record where
  id : String := ""
  title : String := ""
  source_type : String := ""
  path : String := ""
  url : String := ""
  tags : List String := []
  content : String := ""
deriving DecidableEq

/-- The `Match` dataclass of `retrieval_scoring.py`. -/
structure Match where
  score : ℚ
  record : Record
deriving DecidableEq

/-- The `STOPWORDS` set. -/
def STOPWORDS : List String :=
  ["a", "an", "and", "are", "as", "at", "be", "by", "do", "for", "from",
   "how", "i", "in", "is", "it", "of", "on", "or", "our", "should", "that",
   "the", "this", "to", "use", "we", "what", "where", "which", "with"]

/-- The `NOISE_PATH_HINTS` set. -/
def NOISE_PATH_HINTS : List String :=
  ["/thirdparty/", "/third-party/", "/extern/", "/external/", "/vendor/",
   "/deps/", "/.github/", "/wayland/", "/glfw/"]

/-- The `CODEX_HINTS` set. -/
def CODEX_HINTS : Finset String :=
  (["codex", "agent", "agents", "verified", "inference", "skill", "skills",
    "answer", "answers", "contract", "priority"] : List String).toFinset

/-- The `PIPELINE_HINTS` set. -/
def PIPELINE_HINTS : Finset String :=
  (["command", "commands", "script", "scripts", "refresh", "sync", "index",
    "pipeline", "query"] : List String).toFinset

/-- The `BENCHMARK_HINTS` set. -/
def BENCHMARK_HINTS : Finset String :=
  (["benchmark", "benchmarks", "eval", "evaluation", "experiment",
    "experiments", "stretch", "design", "documented", "question",
    "questions", "threshold", "thresholds"] : List String).toFinset

/-- The `SITE_HINTS` set. -/
def SITE_HINTS : Finset String :=
  (["site", "website", "page", "pages", "html", "examples", "example",
    "methodology", "payload"] : List String).toFinset

/-- The `VERIFICATION_HINTS` set. -/
def VERIFICATION_HINTS : Finset String :=
  (["verify", "verification", "coverage", "blocked", "lock", "status"] :
    List String).toFinset

/-- The `CODE_EXAMPLE_HINTS` set. -/
def CODE_EXAMPLE_HINTS : Finset String :=
  (["source", "file", "files", "example", "examples", "ros2", "cpp",
    "python", "low", "level"] : List String).toFinset

/-- The `MANIFEST_HINTS` set. -/
def MANIFEST_HINTS : Finset String :=
  (["manifest", "catalog", "snapshot", "scope"] : List String).toFinset

/-- The `SIM2REAL_HINTS` set. -/
def SIM2REAL_HINTS : Finset String :=
  (["sim2sim", "sim2real", "simulation", "real", "stages", "stage"] :
    List String).toFinset

/-- `normalize_query_tokens` of `retrieval_scoring.py`. -/
def normalize_query_tokens (query : String) : List String :=
  let raw := tokenize query
  if raw = [] then []
  else
    let filtered := raw.filter fun tok => 1 < tok.length && !(STOPWORDS.contains tok)
    if filtered ≠ [] then filtered
    else
      let fallback := raw.filter fun tok => 1 < tok.length
      if fallback = [] then raw else fallback

/-- `classify_query_intent` of `retrieval_scoring.py`.  The Python set of
labels is modelled as the list of labels whose hint set meets the query
token set (only membership in the result is ever used downstream). -/
def classify_query_intent (query_tokens : List String) : List String :=
  let ts := query_tokens.toFinset
  (if ts ∩ CODEX_HINTS ≠ ∅ then ["codex"] else [])
  ++ (if ts ∩ PIPELINE_HINTS ≠ ∅ then ["pipeline"] else [])
  ++ (if ts ∩ BENCHMARK_HINTS ≠ ∅ then ["benchmark"] else [])
  ++ (if ts ∩ SITE_HINTS ≠ ∅ then ["site"] else [])
  ++ (if ts ∩ VERIFICATION_HINTS ≠ ∅ then ["verification"] else [])
  ++ (if ts ∩ CODE_EXAMPLE_HINTS ≠ ∅ then ["code_example"] else [])
  ++ (if ts ∩ MANIFEST_HINTS ≠ ∅ then ["manifest"] else [])
  ++ (if ts ∩ SIM2REAL_HINTS ≠ ∅ then ["sim2real"] else [])

/-- `_path_has_noise` of `retrieval_scoring.py`. -/
def pathHasNoise (path title : String) : Bool :=
  if title = "license" || title = "license.txt" || title = "copying" then true
  else
    let path_norm := "/" ++ stripSlashes path ++ "/"
    if NOISE_PATH_HINTS.any fun hint => containsSub path_norm hint then true
    else strEnds path "/license" || strEnds path "/license.txt"

/-- `len(overlap) / max(len(query_set), 1)` as an exact rational. -/
def covOf (qset overlap : Finset String) : ℚ :=
  (overlap.card : ℚ) / ((max qset.card 1 : ℕ) : ℚ)

/-- Capped per-field term-frequency hits:
`sum(min(field_count.get(tok, 0), cap) for tok in query_set)`. -/
def hitsOf (qset : Finset String) (toks : List String) (cap : ℕ) : ℕ :=
  qset.sum fun tok => min (toks.count tok) cap

/-- The phrase bonus of `score_record`: the first three query tokens joined
by spaces, `+1.5` if that substring occurs in the content, `+2.0` if it
occurs in the path. -/
def phraseBonusOf (query_tokens : List String) (content path : String) : ℚ :=
  let phrase := joinSpace (query_tokens.take 3)
  (if phrase ≠ "" ∧ containsSub content phrase = true then 3/2 else 0)
  + (if phrase ≠ "" ∧ containsSub path phrase = true then 2 else 0)

/-- `overlap_all = query_set & (content_set | title_set | tag_set | path_set)`. -/
def overlapAllOf (qset : Finset String) (content title tagsText path : String) :
    Finset String :=
  qset ∩ ((tokenize content).toFinset ∪ (tokenize title).toFinset
    ∪ (tokenize tagsText).toFinset ∪ (tokenize path).toFinset)

/-- `raw_score` of `score_record` (weights 1 / 3.1 / 2.4 / 2.8 / 7.0 / 4.0
plus the phrase bonus, as exact rationals). -/
def rawScoreOf (query_tokens : List String) (content title tagsText path : String) : ℚ :=
  let qset := query_tokens.toFinset
  (hitsOf qset (tokenize content) 5 : ℚ)
  + (hitsOf qset (tokenize title) 3 : ℚ) * (31/10)
  + (hitsOf qset (tokenize tagsText) 2 : ℚ) * (12/5)
  + (hitsOf qset (tokenize path) 3 : ℚ) * (14/5)
  + covOf qset (overlapAllOf qset content title tagsText path) * 7
  + covOf qset (qset ∩ (tokenize path).toFinset) * 4
  + phraseBonusOf query_tokens content path

/-- The `SOURCE_BOOST` table (`.get(source_type, 1.0)`). -/
def sourceBoostBase (st : String) : ℚ :=
  if st = "support_doc" then 7/5
  else if st = "curated_doc" then 13/10
  else if st = "skill_doc" then 29/20
  else if st = "source_manifest" then 11/10
  else if st = "repo_file" then 19/20
  else if st = "project_doc" then 31/20
  else if st = "project_script" then 27/20
  else if st = "benchmark_spec" then 13/10
  else if st = "site_doc" then 6/5
  else if st = "site_data" then 6/5
  else 1

/-- `source_boost`: table lookup, times `0.35` when the lowered tags
contain `"support_unverified"`. -/
def sourceBoostOf (st : String) (tagsLower : List String) : ℚ :=
  sourceBoostBase st * (if "support_unverified" ∈ tagsLower then 7/20 else 1)

/-- `path_boost`: the if/elif chain over well-known corpus path prefixes. -/
def pathBoostOf (path : String) : ℚ :=
  if path = "agents.md" then 2
  else if strStarts path "skills/unitree-g1-expert" then 17/10
  else if strStarts path "docs/verification" then 27/20
  else if strStarts path "scripts/" then 13/10
  else if strStarts path "benchmarks/" then 5/4
  else if strStarts path "site/" then 6/5
  else if strStarts path "sources/" then 5/4
  else 1

/-- `intent_boost`: each conditional `intent_boost *= c` block of
`score_record` becomes one factor of this product (multiplication of exact
rationals is commutative and associative, so the sequential updates of the
Python code equal this product). -/
def intentBoostOf (qi : List String) (tokenSet : Finset String) (st path : String) : ℚ :=
  (if "codex" ∈ qi then
     (if path == "agents.md" || strStarts path "skills/unitree-g1-expert" then 8/5
      else if strStarts path "scripts/" || strStarts path "docs/verification" then 5/4
      else if st == "repo_file" then 39/50
      else 1)
   else 1)
  * (if "pipeline" ∈ qi then
       (if strStarts path "scripts/" then 3/2
        else if strStarts path "docs/pipelines" then 13/10
        else 1)
     else 1)
  * (if "benchmark" ∈ qi then
       (if strStarts path "benchmarks/" then 3/2
        else if strStarts path "docs/verification" then 13/10
        else 1)
     else 1)
  * (if "benchmark" ∈ qi then
       (if path == "agents.md" || strStarts path "skills/unitree-g1-expert" then 7/10
        else 1)
     else 1)
  * (if "site" ∈ qi then
       (if strStarts path "site/" then 9/5
        else if st == "repo_file" then 3/4
        else 1)
     else 1)
  * (if "verification" ∈ qi ∧ strStarts path "docs/verification" = true then 7/5 else 1)
  * (if "code_example" ∈ qi then
       (if strStarts path "data/repos/" then 17/10
        else if strStarts path "skills/" then 4/5
        else 1)
     else 1)
  * (if "manifest" ∈ qi then
       (if strStarts path "sources/" || st == "source_manifest" then 19/10
        else if strStarts path "scripts/" then 9/10
        else 1)
     else 1)
  * (if "sim2real" ∈ qi ∧ strStarts path "docs/pipelines/" = true then 8/5 else 1)
  * (if st = "benchmark_spec" ∧ "benchmark" ∉ qi then 2/5 else 1)
  * (if st = "site_data" ∧ "site" ∈ qi then 3/2 else 1)
  * (if ({"ros2", "low", "level"} : Finset String) ∩ tokenSet ≠ ∅
        ∧ strStarts path "data/repos/unitree_ros2/" = true then 19/10 else 1)
  * (if ({"payload", "website", "site"} : Finset String) ∩ tokenSet ≠ ∅ then
       (if path = "site/data/benchmark_examples.json" then 12/5
        else if path = "scripts/build_site.py" then 19/10
        else 1)
     else 1)
  * (if ({"catalog", "manifest"} : Finset String) ∩ tokenSet ≠ ∅
        ∧ strStarts path "sources/" = true then 2 else 1)

/-- `noise_penalty`: `×0.25` on the denylist, `×0.55` when the query has
at least 4 distinct tokens and coverage is below `0.20`. -/
def noisePenaltyOf (query_tokens : List String)
    (content title tagsText path : String) : ℚ :=
  let qset := query_tokens.toFinset
  (if pathHasNoise path title then 1/4 else 1)
  * (if 4 ≤ qset.card
        ∧ covOf qset (overlapAllOf qset content title tagsText path) < 1/5
     then 11/20 else 1)

/-- `score_record` of `retrieval_scoring.py`: the early zero returns
followed by `raw_score * source_boost * path_boost * intent_boost *
noise_penalty`. -/
def score_record (query_tokens query_intents : List String) (record : Record) : ℚ :=
  if query_tokens = [] then 0 else
  let content := pyLower record.content
  let title := pyLower record.title
  let tagsText := pyLower (joinSpace record.tags)
  let path := pyLower record.path
  let source_type := pyLower record.source_type
  if content = "" ∧ title = "" ∧ path = "" then 0 else
  if tokenize content = [] ∧ tokenize title = [] ∧ tokenize path = [] then 0 else
  if query_tokens.toFinset = ∅ then 0 else
  if overlapAllOf query_tokens.toFinset content title tagsText path = ∅ then 0 else
  rawScoreOf query_tokens content title tagsText path
    * sourceBoostOf source_type (record.tags.map pyLower)
    * pathBoostOf path
    * intentBoostOf query_intents query_tokens.toFinset source_type path
    * noisePenaltyOf query_tokens content title tagsText path

namespace QueryIndex

/-- `score` of `query_index.py` (the interactive query tool's own scorer):
weights 1 / 2.2 / 1.6 / 8.0, a four-token phrase bonus of 2.0 on content
only, its own smaller source-boost table on the raw (uncased) source type,
and no path, intent, or noise signals. -/
def score (query_tokens : List String) (record : Record) : ℚ :=
  if query_tokens = [] then 0 else
  let content := pyLower record.content
  let title := pyLower record.title
  let tags := pyLower (joinSpace record.tags)
  if content = "" ∧ title = "" then 0 else
  let content_tokens := tokenize content
  let title_tokens := tokenize title
  let tag_tokens := tokenize tags
  if content_tokens = [] ∧ title_tokens = [] then 0 else
  let qset := query_tokens.toFinset
  let overlap := (qset ∩ content_tokens.toFinset) ∪ (qset ∩ title_tokens.toFinset)
    ∪ (qset ∩ tag_tokens.toFinset)
  let phrase := joinSpace (query_tokens.take 4)
  let phrase_bonus : ℚ := if phrase ≠ "" ∧ containsSub content phrase = true then 2 else 0
  let source_boost : ℚ :=
    (if record.source_type = "support_doc" then 13/10
     else if record.source_type = "curated_doc" then 6/5
     else if record.source_type = "skill_doc" then 11/10
     else if record.source_type = "source_manifest" then 13/20
     else if record.source_type = "repo_file" then 1
     else 1)
    * (if "support_unverified" ∈ record.tags then 7/20 else 1)
  ((hitsOf qset content_tokens 5 : ℚ)
    + (hitsOf qset title_tokens 3 : ℚ) * (11/5)
    + (hitsOf qset tag_tokens 2 : ℚ) * (8/5)
    + covOf qset overlap * 8
    + phrase_bonus) * source_boost

end QueryIndex

/-- The source filter of `rank_records`: a record is kept when the filter
is absent, empty (Python's falsy empty set), or contains its source type. -/
def keepRecord (sf : Option (List String)) (r : Record) : Bool :=
  match sf with
  | none => true
  | some s => s.isEmpty || s.contains r.source_type

/-- The scan loop of `rank_records`: the positive-scoring matches of the
non-excluded records, in input order. -/
def positiveMatches (records : List Record) (query_tokens intents : List String)
    (sf : Option (List String)) : List Match :=
  ((records.filter (keepRecord sf)).map
      fun r => Match.mk (score_record query_tokens intents r) r).filter
    fun m => decide (0 < m.score)

/-- `ranked.sort(key=lambda item: item.score, reverse=True)`: a stable
sort that is non-increasing on scores. -/
def sortDesc (l : List Match) : List Match :=
  l.mergeSort fun a b => decide (b.score ≤ a.score)

/-- Python list slicing `l[:k]`, including the negative-`k` semantics
(`l[:k] = l[:len(l)+k]` for `k < 0`). -/
def pyTake (k : Int) (l : List Match) : List Match :=
  if 0 ≤ k then l.take k.toNat else l.take ((l.length : Int) + k).toNat

/-- `rank_records` of `retrieval_scoring.py`. -/
def rank_records (records : List Record) (query : String) (top_k : Int)
    (source_filters : Option (List String)) : List Match :=
  let query_tokens := normalize_query_tokens query
  let intents := classify_query_intent query_tokens
  pyTake top_k (sortDesc (positiveMatches records query_tokens intents source_filters))

/-- The identity key of `dedupe_matches`: stripped path, else stripped
url, else stripped id. -/
def identityKey (r : Record) : String :=
  pyOrS (pyOrS (pyStrip r.path) (pyStrip r.url)) (pyStrip r.id)

/-- The loop of `dedupe_matches`: `seen` is the set of keys already kept,
`acc` the kept matches in reverse; a match is skipped when its key is
empty or seen, and the loop breaks once `top_k` matches are kept. -/
def dedupeGo (top_k : Int) : List Match → List String → List Match → List Match
  | [], _, acc => acc.reverse
  | item :: rest, seen, acc =>
    let key := identityKey item.record
    if key = "" ∨ seen.contains key = true then dedupeGo top_k rest seen acc
    else if top_k ≤ (acc.length : Int) + 1 then (item :: acc).reverse
    else dedupeGo top_k rest (key :: seen) (item :: acc)

/-- `dedupe_matches` of `eval_retrieval.py`. -/
def dedupe_matches (ms : List Match) (top_k : Int) : List Match :=
  dedupeGo top_k ms [] []

/-!  Positivity of the multiplicative boosts and non-negativity of the
additive raw score. -/

lemma sourceBoostBase_pos (st : String) : 0 < sourceBoostBase st := by
  unfold sourceBoostBase
  split_ifs <;> norm_num

lemma sourceBoostOf_pos (st : String) (tagsLower : List String) :
    0 < sourceBoostOf st tagsLower := by
  unfold sourceBoostOf
  refine mul_pos (sourceBoostBase_pos st) ?_
  split_ifs <;> norm_num

lemma pathBoostOf_pos (p : String) : 0 < pathBoostOf p := by
  unfold pathBoostOf
  split_ifs <;> norm_num

lemma intentBoostOf_pos (qi : List String) (ts : Finset String) (st p : String) :
    0 < intentBoostOf qi ts st p := by
  unfold intentBoostOf
  refine mul_pos (mul_pos (mul_pos (mul_pos (mul_pos (mul_pos (mul_pos (mul_pos
    (mul_pos (mul_pos (mul_pos (mul_pos (mul_pos ?_ ?_) ?_) ?_) ?_) ?_) ?_) ?_)
    ?_) ?_) ?_) ?_) ?_) ?_ <;> (split_ifs <;> norm_num)

lemma noisePenaltyOf_pos (qt : List String) (c t g p : String) :
    0 < noisePenaltyOf qt c t g p := by
  simp only [noisePenaltyOf]
  refine mul_pos ?_ ?_ <;> (split_ifs <;> norm_num)

lemma covOf_nonneg (q o : Finset String) : 0 ≤ covOf q o := by
  unfold covOf
  positivity

lemma phraseBonusOf_nonneg (qt : List String) (c p : String) :
    0 ≤ phraseBonusOf qt c p := by
  simp only [phraseBonusOf]
  apply add_nonneg <;> split_ifs <;> norm_num

lemma rawScoreOf_nonneg (qt : List String) (c t g p : String) :
    0 ≤ rawScoreOf qt c t g p := by
  simp only [rawScoreOf]
  refine add_nonneg (add_nonneg (add_nonneg (add_nonneg (add_nonneg
    (add_nonneg ?_ ?_) ?_) ?_) ?_) ?_) ?_
  · positivity
  · positivity
  · positivity
  · positivity
  · exact mul_nonneg (covOf_nonneg _ _) (by norm_num)
  · exact mul_nonneg (covOf_nonneg _ _) (by norm_num)
  · exact phraseBonusOf_nonneg qt c p

/-- C6: for every query-token sequence, intent set, and record — including
empty query, empty content, empty tags, and fields that degrade to empty
strings — `score_record` returns a value `≥ 0` (and, being a total Lean
function over total record fields, it never raises). -/
theorem c6_score_nonneg (qt qi : List String) (r : Record) :
    0 ≤ score_record qt qi r := by
  simp only [score_record]
  split_ifs <;> try norm_num
  exact mul_nonneg (mul_nonneg (mul_nonneg (mul_nonneg
    (rawScoreOf_nonneg _ _ _ _ _) (sourceBoostOf_pos _ _).le)
    (pathBoostOf_pos _).le) (intentBoostOf_pos _ _ _ _).le)
    (noisePenaltyOf_pos _ _ _ _ _).le

/-- C4: query normalization is exactly the three-stage cascade — keep
tokens of length `> 1` that are not stopwords; if empty, all tokens of
length `> 1`; if still empty, the raw tokenization — and consequently a
non-empty tokenization never normalizes to an empty sequence. -/
theorem c4_normalize_query_cascade (query : String) :
    (normalize_query_tokens query =
      if (tokenize query).filter
          (fun tok => 1 < tok.length && !(STOPWORDS.contains tok)) ≠ [] then
        (tokenize query).filter (fun tok => 1 < tok.length && !(STOPWORDS.contains tok))
      else if (tokenize query).filter (fun tok => 1 < tok.length) ≠ [] then
        (tokenize query).filter (fun tok => 1 < tok.length)
      else tokenize query)
    ∧ (tokenize query ≠ [] → normalize_query_tokens query ≠ []) := by
  constructor
  · by_cases h : tokenize query = []
    · simp [normalize_query_tokens, h]
    · simp only [normalize_query_tokens, if_neg h]
      split_ifs <;> first | rfl | contradiction
  · intro h
    simp only [normalize_query_tokens]
    split_ifs with h1 h2 h3
    · exact absurd h1 h
    · exact h2
    · exact h
    · exact h3

/-- Witness for C4 at the stopword-only query `"the a"`: it tokenizes to
`["the", "a"]`, stopword filtering empties it, and the fallback keeps
`["the"]`, which is non-empty. -/
theorem c4_normalize_query_cascade_witness :
    tokenize "the a" ≠ [] ∧ normalize_query_tokens "the a" ≠ [] :=
  ⟨by decide, (c4_normalize_query_cascade "the a").2 (by decide)⟩

lemma overlapAll_eq_empty {qt : List String} {c t g p : String}
    (hc : qt.toFinset ∩ (tokenize c).toFinset = ∅)
    (ht : qt.toFinset ∩ (tokenize t).toFinset = ∅)
    (hg : qt.toFinset ∩ (tokenize g).toFinset = ∅)
    (hp : qt.toFinset ∩ (tokenize p).toFinset = ∅) :
    overlapAllOf qt.toFinset c t g p = ∅ := by
  unfold overlapAllOf
  rw [Finset.inter_union_distrib_left, Finset.inter_union_distrib_left,
    Finset.inter_union_distrib_left, hc, ht, hg, hp]
  simp

/-- C5: a record whose content, title, path, and (joined) tags token sets
are all disjoint from the query token set scores exactly 0, for every
query-token sequence and every intent set. -/
theorem c5_disjoint_record_scores_zero (qt qi : List String) (r : Record)
    (hc : qt.toFinset ∩ (tokenize (pyLower r.content)).toFinset = ∅)
    (ht : qt.toFinset ∩ (tokenize (pyLower r.title)).toFinset = ∅)
    (hp : qt.toFinset ∩ (tokenize (pyLower r.path)).toFinset = ∅)
    (hg : qt.toFinset ∩ (tokenize (pyLower (joinSpace r.tags))).toFinset = ∅) :
    score_record qt qi r = 0 := by
  have hov := overlapAll_eq_empty hc ht hg hp
  simp only [score_record]
  split_ifs <;> rfl

/-- Witness for C5: the query token `"alpha"` shares no token with a
record whose only text is `"beta"`, and the score is 0. -/
theorem c5_disjoint_record_scores_zero_witness :
    (["alpha"] : List String).toFinset
        ∩ (tokenize (pyLower ("beta" : String))).toFinset = ∅
    ∧ score_record ["alpha"] [] { content := "beta" } = 0 :=
  ⟨by decide, c5_disjoint_record_scores_zero ["alpha"] [] { content := "beta" }
    (by decide) (by decide) (by decide) (by decide)⟩

/-- C1 counterexample: on the single-token query `"foo"` and a record
whose content is `"foo"`, the interactive query tool's scorer returns 11
while the shared scorer returns 9.5 — the two scoring functions are not
extensionally equal, refuting the claim at this concrete input. -/
theorem c1_interactive_shared_counterexample :
    QueryIndex.score ["foo"] { content := "foo" }
      ≠ score_record ["foo"] (classify_query_intent ["foo"]) { content := "foo" } := by
  with_unfolding_all decide

/-- C1 amended: the interactive query tool does not obtain its scores from
the shared scoring engine — its own scorer and the shared scorer disagree
on some query-token sequence and record. -/
theorem c1_interactive_scorer_not_shared :
    ∃ (qt : List String) (r : Record),
      QueryIndex.score qt r ≠ score_record qt (classify_query_intent qt) r :=
  ⟨["foo"], { content := "foo" }, by with_unfolding_all decide⟩

/-- C2 failing input: `rank` called with `top_k = -1` on two
positive-scoring records returns one match — Python's negative slice
`ranked[:-1]` drops only the last element — instead of the empty sequence
the spec requires for every `top_k ≤ 0`. -/
theorem c2_rank_negative_topk_failing_input :
    rank_records [{ content := "foo" }, { content := "foo foo" }] "foo" (-1) none
      = [⟨21/2, { content := "foo foo" }⟩] := by
  with_unfolding_all decide

/-!  Tokenizer append lemmas: a non-token character splits the input, so
appending one further space-separated tag appends its token. -/

lemma tokensAux_append_sep {c : Char} (hc : isTokChar c = false) (ys : List Char) :
    ∀ (xs cur : List Char),
      tokensAux (xs ++ c :: ys) cur = tokensAux xs cur ++ tokensAux ys [] := by
  intro xs
  induction xs with
  | nil =>
    intro cur
    by_cases hcur : cur = [] <;> simp [tokensAux, hc, hcur]
  | cons a xs ih =>
    intro cur
    simp only [List.cons_append, tokensAux]
    split_ifs <;> simp [ih]

lemma tokenize_append_space (s t : String) :
    tokenize (s ++ " " ++ t) = tokenize s ++ tokenize t := by
  obtain ⟨a⟩ := s
  obtain ⟨b⟩ := t
  simp only [tokenize, String.data_append, List.map_append]
  rw [show (" " : String).data.map lowerChar = [' '] from rfl]
  rw [List.append_assoc, List.singleton_append]
  rw [tokensAux_append_sep (by decide)]
  simp

lemma joinSpace_append_singleton (l : List String) (x : String) :
    joinSpace (l ++ [x]) = if l = [] then x else joinSpace l ++ " " ++ x := by
  induction l with
  | nil => rfl
  | cons a l ih =>
    cases l with
    | nil => rfl
    | cons b l' =>
      simp only [List.cons_append, List.append_eq, joinSpace] at ih ⊢
      rw [ih]
      simp [String.append_assoc]

lemma tagTokens_append_su (tags : List String) :
    tokenize (pyLower (joinSpace (tags ++ ["support_unverified"])))
      = tokenize (pyLower (joinSpace tags)) ++ ["support_unverified"] := by
  have hlow : ∀ u : String, pyLower (joinSpace tags ++ " " ++ u)
      = pyLower (joinSpace tags) ++ " " ++ pyLower u := by
    intro u
    obtain ⟨a⟩ := joinSpace tags
    obtain ⟨b⟩ := u
    show String.mk _ = String.mk _
    simp [pyLower, String.data_append, List.map_append,
      show lowerChar ' ' = ' ' from rfl]
  rw [joinSpace_append_singleton]
  by_cases h : tags = []
  · rw [if_pos h, h]
    decide
  · rw [if_neg h, hlow, tokenize_append_space]
    have : tokenize (pyLower "support_unverified") = ["support_unverified"] := by decide
    rw [this]

lemma hitsOf_append_notmem {qset : Finset String} {x : String} (hx : x ∉ qset)
    (toks : List String) (cap : ℕ) :
    hitsOf qset (toks ++ [x]) cap = hitsOf qset toks cap := by
  unfold hitsOf
  apply Finset.sum_congr rfl
  intro tok htok
  have hne : x ≠ tok := fun h => hx (h ▸ htok)
  rw [List.count_append, List.count_singleton]
  simp [hne]

lemma overlapAll_congr_tagTokens {qset : Finset String} {c t gA gB p : String}
    (h : tokenize gB = tokenize gA ++ ["support_unverified"])
    (hsu : "support_unverified" ∉ qset) :
    overlapAllOf qset c t gB p = overlapAllOf qset c t gA p := by
  unfold overlapAllOf
  rw [h]
  ext x
  simp only [Finset.mem_inter, Finset.mem_union, List.mem_toFinset, List.mem_append,
    List.mem_singleton]
  constructor
  · rintro ⟨h1, h2⟩
    have hne : x ≠ "support_unverified" := fun e => hsu (e ▸ h1)
    refine ⟨h1, ?_⟩
    tauto
  · rintro ⟨h1, h2⟩
    refine ⟨h1, ?_⟩
    tauto

lemma sourceBoost_append_su {st : String} {tags : List String}
    (hA : "support_unverified" ∉ tags.map pyLower) :
    sourceBoostOf st ((tags ++ ["support_unverified"]).map pyLower)
      = 7/20 * sourceBoostOf st (tags.map pyLower) := by
  unfold sourceBoostOf
  rw [List.map_append]
  have hmem : "support_unverified" ∈ tags.map pyLower ++ ["support_unverified"].map pyLower :=
    List.mem_append_right _ (by decide)
  rw [if_pos hmem, if_neg hA]
  ring

/-- C7 counterexample: the scorer tests for the tag `"support_unverified"`,
not `"unverified"`.  On the query `"motor"`, a record carrying the literal
tag `"unverified"` scores exactly the same as the untagged record (both
9.5 > 0) — no `0.35×` suppression and no strictly lower score, refuting
the claim as stated. -/
theorem c7_unverified_tag_counterexample :
    score_record (normalize_query_tokens "motor")
        (classify_query_intent (normalize_query_tokens "motor"))
        { content := "motor", tags := ["unverified"] }
      = score_record (normalize_query_tokens "motor")
        (classify_query_intent (normalize_query_tokens "motor"))
        { content := "motor" }
    ∧ 0 < score_record (normalize_query_tokens "motor")
        (classify_query_intent (normalize_query_tokens "motor"))
        { content := "motor" } := by
  constructor <;> with_unfolding_all decide

/-- C7 amended: for every query-token sequence and intent set, a record
that additionally carries the tag `"support_unverified"` (the unverified
marker the code actually tests) scores exactly `0.35` times the otherwise
identical untagged record, hence strictly lower whenever the untagged
record scores positively — provided the marker tag is neither already on
the record nor itself a query token. -/
theorem c7_support_unverified_suppression (qt qi : List String) (A : Record)
    (hA : "support_unverified" ∉ A.tags.map pyLower)
    (hq : "support_unverified" ∉ qt) :
    score_record qt qi { A with tags := A.tags ++ ["support_unverified"] }
        = 7/20 * score_record qt qi A
    ∧ (0 < score_record qt qi A →
        score_record qt qi { A with tags := A.tags ++ ["support_unverified"] }
          < score_record qt qi A) := by
  obtain ⟨rid, rtitle, rst, rpath, rurl, rtags, rcontent⟩ := A
  have hsu : "support_unverified" ∉ qt.toFinset := by simpa using hq
  have htok := tagTokens_append_su rtags
  have hov := @overlapAll_congr_tagTokens qt.toFinset (pyLower rcontent) (pyLower rtitle)
    (pyLower (joinSpace rtags))
    (pyLower (joinSpace (rtags ++ ["support_unverified"]))) (pyLower rpath) htok hsu
  have heq : score_record qt qi
      ⟨rid, rtitle, rst, rpath, rurl, rtags ++ ["support_unverified"], rcontent⟩
      = 7/20 * score_record qt qi ⟨rid, rtitle, rst, rpath, rurl, rtags, rcontent⟩ := by
    have hraw : rawScoreOf qt (pyLower rcontent) (pyLower rtitle)
        (pyLower (joinSpace (rtags ++ ["support_unverified"]))) (pyLower rpath)
        = rawScoreOf qt (pyLower rcontent) (pyLower rtitle)
          (pyLower (joinSpace rtags)) (pyLower rpath) := by
      simp only [rawScoreOf]
      rw [htok, hitsOf_append_notmem hsu, hov]
    have hnp : noisePenaltyOf qt (pyLower rcontent) (pyLower rtitle)
        (pyLower (joinSpace (rtags ++ ["support_unverified"]))) (pyLower rpath)
        = noisePenaltyOf qt (pyLower rcontent) (pyLower rtitle)
          (pyLower (joinSpace rtags)) (pyLower rpath) := by
      simp only [noisePenaltyOf]
      rw [hov]
    simp only [score_record]
    rw [hov, hraw, hnp, sourceBoost_append_su hA]
    split_ifs <;> ring
  refine ⟨heq, fun hpos => ?_⟩
  rw [heq]
  linarith

/-- Witness for the amended C7 on the query token `"motor"`: tagging the
record `{content := "motor"}` with `"support_unverified"` multiplies its
score by exactly `0.35`. -/
theorem c7_support_unverified_suppression_witness :
    score_record ["motor"] [] { content := "motor", tags := ["support_unverified"] }
      = 7/20 * score_record ["motor"] [] { content := "motor" } :=
  (c7_support_unverified_suppression ["motor"] [] { content := "motor" }
    (by decide) (by decide)).1

lemma covOf_empty (q : Finset String) : covOf q (∅ : Finset String) = 0 := by
  unfold covOf
  simp

lemma covOf_le_covOf {q o1 o2 : Finset String} (h : o1 ⊆ o2) :
    covOf q o1 ≤ covOf q o2 := by
  unfold covOf
  have hd : (0:ℚ) < ((max q.card 1 : ℕ) : ℚ) := by
    have : 0 < max q.card 1 := Nat.lt_of_lt_of_le Nat.zero_lt_one (Nat.le_max_right _ _)
    exact_mod_cast this
  rw [div_le_div_iff_of_pos_right hd]
  exact_mod_cast Finset.card_le_card h

lemma hitsOf_eq_zero {qset : Finset String} {toks : List String}
    (h : ∀ tok ∈ qset, tok ∉ toks) (cap : ℕ) : hitsOf qset toks cap = 0 := by
  unfold hitsOf
  apply Finset.sum_eq_zero
  intro tok htok
  simp [List.count_eq_zero.mpr (h tok htok)]

lemma one_le_hitsOf {qset : Finset String} {toks : List String} {tok : String}
    (h1 : tok ∈ qset) (h2 : tok ∈ toks) {cap : ℕ} (hcap : 1 ≤ cap) :
    1 ≤ hitsOf qset toks cap := by
  unfold hitsOf
  have hle : ∀ i ∈ qset, (0:ℕ) ≤ (fun t => min (List.count t toks) cap) i :=
    fun i _ => Nat.zero_le _
  exact le_trans (le_min (List.count_pos_iff.mpr h2) hcap)
    (Finset.single_le_sum hle h1)

lemma overlapAll_subset_of_path_disjoint {qset : Finset String} {c t g pA pB : String}
    (hB : qset ∩ (tokenize pB).toFinset = ∅) :
    overlapAllOf qset c t g pB ⊆ overlapAllOf qset c t g pA := by
  intro x hx
  unfold overlapAllOf at hx ⊢
  obtain ⟨hxq, hxu⟩ := Finset.mem_inter.mp hx
  refine Finset.mem_inter.mpr ⟨hxq, ?_⟩
  have hxnotp : x ∉ (tokenize pB).toFinset := fun hp =>
    Finset.eq_empty_iff_forall_not_mem.mp hB x (Finset.mem_inter.mpr ⟨hxq, hp⟩)
  rcases Finset.mem_union.mp hxu with h | h
  · exact Finset.mem_union_left _ h
  · exact absurd h hxnotp

lemma score_record_main (qt qi : List String) (r : Record) (hq : qt ≠ [])
    (hpt : tokenize (pyLower r.path) ≠ [])
    (hov : overlapAllOf qt.toFinset (pyLower r.content) (pyLower r.title)
      (pyLower (joinSpace r.tags)) (pyLower r.path) ≠ ∅) :
    score_record qt qi r
      = rawScoreOf qt (pyLower r.content) (pyLower r.title)
          (pyLower (joinSpace r.tags)) (pyLower r.path)
        * sourceBoostOf (pyLower r.source_type) (r.tags.map pyLower)
        * pathBoostOf (pyLower r.path)
        * intentBoostOf qi qt.toFinset (pyLower r.source_type) (pyLower r.path)
        * noisePenaltyOf qt (pyLower r.content) (pyLower r.title)
            (pyLower (joinSpace r.tags)) (pyLower r.path) := by
  have hg2 : ¬(pyLower r.content = "" ∧ pyLower r.title = "" ∧ pyLower r.path = "") := by
    rintro ⟨-, -, hp⟩
    rw [hp] at hpt
    exact hpt rfl
  have hg3 : ¬(tokenize (pyLower r.content) = [] ∧ tokenize (pyLower r.title) = []
      ∧ tokenize (pyLower r.path) = []) := by
    rintro ⟨-, -, hp⟩
    exact hpt hp
  have hg4 : ¬(qt.toFinset = ∅) := by
    simp only [List.toFinset_eq_empty_iff]
    exact hq
  have hg1 : ¬(qt = []) := hq
  have hg5 : ¬(overlapAllOf qt.toFinset (pyLower r.content) (pyLower r.title)
      (pyLower (joinSpace r.tags)) (pyLower r.path) = ∅) := hov
  simp only [score_record]
  split_ifs
  rfl

lemma score_record_zero_or_main (qt qi : List String) (r : Record) :
    score_record qt qi r = 0
    ∨ score_record qt qi r
      = rawScoreOf qt (pyLower r.content) (pyLower r.title)
          (pyLower (joinSpace r.tags)) (pyLower r.path)
        * sourceBoostOf (pyLower r.source_type) (r.tags.map pyLower)
        * pathBoostOf (pyLower r.path)
        * intentBoostOf qi qt.toFinset (pyLower r.source_type) (pyLower r.path)
        * noisePenaltyOf qt (pyLower r.content) (pyLower r.title)
            (pyLower (joinSpace r.tags)) (pyLower r.path) := by
  simp only [score_record]
  split_ifs <;> simp

lemma mul5_lt_mul5 {rB rA sb pb ib npB npA : ℚ} (hraw : rB < rA) (hrB : 0 ≤ rB)
    (hsb : 0 < sb) (hpb : 0 < pb) (hib : 0 < ib) (hnpA : 0 < npA)
    (hnp : npB ≤ npA) :
    rB * sb * pb * ib * npB < rA * sb * pb * ib * npA := by
  have h1 : 0 ≤ rB * sb * pb * ib :=
    mul_nonneg (mul_nonneg (mul_nonneg hrB hsb.le) hpb.le) hib.le
  calc rB * sb * pb * ib * npB ≤ rB * sb * pb * ib * npA :=
        mul_le_mul_of_nonneg_left hnp h1
    _ < rA * sb * pb * ib * npA := by
        apply mul_lt_mul_of_pos_right ?_ hnpA
        apply mul_lt_mul_of_pos_right ?_ hib
        apply mul_lt_mul_of_pos_right ?_ hpb
        exact mul_lt_mul_of_pos_right hraw hsb

lemma phraseBonus_diff_le (qt : List String) (c pA pB : String) :
    phraseBonusOf qt c pB ≤ phraseBonusOf qt c pA + 2 := by
  simp only [phraseBonusOf]
  split_ifs <;> norm_num

/-- C8 amended: all else equal — the two records identical except for the
path, and the two paths equivalent for every path-conditioned multiplier
(path-prefix boost, intent boost, noise denylist) — a record whose path
token set contains a query token scores strictly higher than one whose
path contains no query token, for every non-empty query-token sequence
and every intent set.  No proviso is needed for the phrase-in-path bonus:
a token hit in the path contributes at least `2.8` to the raw score while
the phrase bonus is at most `2.0`. -/
theorem c8_amended (qt qi : List String) (A : Record) (p2 : String)
    (hq : qt ≠ [])
    (hA : qt.toFinset ∩ (tokenize (pyLower A.path)).toFinset ≠ ∅)
    (hB : qt.toFinset ∩ (tokenize (pyLower p2)).toFinset = ∅)
    (hpb : pathBoostOf (pyLower p2) = pathBoostOf (pyLower A.path))
    (hib : intentBoostOf qi qt.toFinset (pyLower A.source_type) (pyLower p2)
            = intentBoostOf qi qt.toFinset (pyLower A.source_type) (pyLower A.path))
    (hnz : pathHasNoise (pyLower p2) (pyLower A.title)
            = pathHasNoise (pyLower A.path) (pyLower A.title)) :
    score_record qt qi { A with path := p2 } < score_record qt qi A := by
  obtain ⟨rid, rtitle, rst, rpath, rurl, rtags, rcontent⟩ := A
  have hptA : tokenize (pyLower rpath) ≠ [] := by
    intro h
    rw [show pyLower rpath = pyLower rpath from rfl, h] at hA
    simp at hA
  obtain ⟨x, hxmem⟩ := Finset.nonempty_iff_ne_empty.mpr hA
  have hxq : x ∈ qt.toFinset := (Finset.mem_inter.mp hxmem).1
  have hxp : x ∈ (tokenize (pyLower rpath)).toFinset := (Finset.mem_inter.mp hxmem).2
  have hovA : overlapAllOf qt.toFinset (pyLower rcontent) (pyLower rtitle)
      (pyLower (joinSpace rtags)) (pyLower rpath) ≠ ∅ := by
    apply Finset.nonempty_iff_ne_empty.mp
    refine ⟨x, ?_⟩
    unfold overlapAllOf
    exact Finset.mem_inter.mpr ⟨hxq, Finset.mem_union_right _ hxp⟩
  have hSA := score_record_main qt qi ⟨rid, rtitle, rst, rpath, rurl, rtags, rcontent⟩
    hq hptA hovA
  have hhitsA : 1 ≤ hitsOf qt.toFinset (tokenize (pyLower rpath)) 3 :=
    one_le_hitsOf hxq (List.mem_toFinset.mp hxp) (by norm_num)
  have hrawA_pos : 0 < rawScoreOf qt (pyLower rcontent) (pyLower rtitle)
      (pyLower (joinSpace rtags)) (pyLower rpath) := by
    simp only [rawScoreOf]
    have h1 : (1:ℚ) ≤ (hitsOf qt.toFinset (tokenize (pyLower rpath)) 3 : ℚ) := by
      exact_mod_cast hhitsA
    have h2 := covOf_nonneg qt.toFinset (overlapAllOf qt.toFinset (pyLower rcontent)
      (pyLower rtitle) (pyLower (joinSpace rtags)) (pyLower rpath))
    have h3 := covOf_nonneg qt.toFinset (qt.toFinset ∩ (tokenize (pyLower rpath)).toFinset)
    have h4 := phraseBonusOf_nonneg qt (pyLower rcontent) (pyLower rpath)
    have h5 : (0:ℚ) ≤ (hitsOf qt.toFinset (tokenize (pyLower rcontent)) 5 : ℚ) :=
      Nat.cast_nonneg _
    have h6 : (0:ℚ) ≤ (hitsOf qt.toFinset (tokenize (pyLower rtitle)) 3 : ℚ) :=
      Nat.cast_nonneg _
    have h7 : (0:ℚ) ≤ (hitsOf qt.toFinset (tokenize (pyLower (joinSpace rtags))) 2 : ℚ) :=
      Nat.cast_nonneg _
    linarith
  have hposA : 0 < score_record qt qi ⟨rid, rtitle, rst, rpath, rurl, rtags, rcontent⟩ := by
    rw [hSA]
    exact mul_pos (mul_pos (mul_pos (mul_pos hrawA_pos (sourceBoostOf_pos _ _))
      (pathBoostOf_pos _)) (intentBoostOf_pos _ _ _ _)) (noisePenaltyOf_pos _ _ _ _ _)
  rcases score_record_zero_or_main qt qi ⟨rid, rtitle, rst, p2, rurl, rtags, rcontent⟩
    with hz | hm
  · rw [hz]
    exact hposA
  · have hcovle : covOf qt.toFinset (overlapAllOf qt.toFinset (pyLower rcontent)
        (pyLower rtitle) (pyLower (joinSpace rtags)) (pyLower p2))
        ≤ covOf qt.toFinset (overlapAllOf qt.toFinset (pyLower rcontent)
        (pyLower rtitle) (pyLower (joinSpace rtags)) (pyLower rpath)) :=
      covOf_le_covOf (overlapAll_subset_of_path_disjoint hB)
    have hrawlt : rawScoreOf qt (pyLower rcontent) (pyLower rtitle)
        (pyLower (joinSpace rtags)) (pyLower p2)
        < rawScoreOf qt (pyLower rcontent) (pyLower rtitle)
          (pyLower (joinSpace rtags)) (pyLower rpath) := by
      simp only [rawScoreOf]
      have e1 : hitsOf qt.toFinset (tokenize (pyLower p2)) 3 = 0 := by
        apply hitsOf_eq_zero
        intro tok ht hmem
        exact Finset.eq_empty_iff_forall_not_mem.mp hB tok
          (Finset.mem_inter.mpr ⟨ht, List.mem_toFinset.mpr hmem⟩)
      have e4 : phraseBonusOf qt (pyLower rcontent) (pyLower p2)
          ≤ phraseBonusOf qt (pyLower rcontent) (pyLower rpath) + 2 :=
        phraseBonus_diff_le qt (pyLower rcontent) (pyLower rpath) (pyLower p2)
      rw [e1, hB, covOf_empty]
      have h1 : (1:ℚ) ≤ (hitsOf qt.toFinset (tokenize (pyLower rpath)) 3 : ℚ) := by
        exact_mod_cast hhitsA
      have h3 := covOf_nonneg qt.toFinset (qt.toFinset ∩ (tokenize (pyLower rpath)).toFinset)
      push_cast
      linarith [hcovle]
    have hnple : noisePenaltyOf qt (pyLower rcontent) (pyLower rtitle)
        (pyLower (joinSpace rtags)) (pyLower p2)
        ≤ noisePenaltyOf qt (pyLower rcontent) (pyLower rtitle)
          (pyLower (joinSpace rtags)) (pyLower rpath) := by
      simp only [noisePenaltyOf]
      rw [hnz]
      refine mul_le_mul_of_nonneg_left ?_ ?_
      · by_cases hA4 : 4 ≤ qt.toFinset.card ∧ covOf qt.toFinset (overlapAllOf qt.toFinset
            (pyLower rcontent) (pyLower rtitle) (pyLower (joinSpace rtags))
            (pyLower rpath)) < 1/5
        · have hB4 : 4 ≤ qt.toFinset.card ∧ covOf qt.toFinset (overlapAllOf qt.toFinset
              (pyLower rcontent) (pyLower rtitle) (pyLower (joinSpace rtags))
              (pyLower p2)) < 1/5 := ⟨hA4.1, lt_of_le_of_lt hcovle hA4.2⟩
          rw [if_pos hA4, if_pos hB4]
        · rw [if_neg hA4]
          split_ifs <;> norm_num
      · split_ifs <;> norm_num
    rw [hm, hSA, hpb, hib]
    exact mul5_lt_mul5 hrawlt
      (rawScoreOf_nonneg _ _ _ _ _) (sourceBoostOf_pos _ _) (pathBoostOf_pos _)
      (intentBoostOf_pos _ _ _ _) (noisePenaltyOf_pos _ _ _ _ _) hnple

/-- C8 counterexample: on the query token `"vendor"`, a record with path
`"x/vendor/y"` (which contains the query token) scores 4.575 while the
otherwise-identical record with path `"z"` (no query token) scores 9.5 —
the noise denylist penalizes `/vendor/` paths by `0.25×`, so the claim as
stated is false. -/
theorem c8_path_token_counterexample :
    (["vendor"] : List String).toFinset
        ∩ (tokenize (pyLower ("x/vendor/y" : String))).toFinset ≠ ∅
    ∧ (["vendor"] : List String).toFinset
        ∩ (tokenize (pyLower ("z" : String))).toFinset = ∅
    ∧ score_record ["vendor"] (classify_query_intent ["vendor"])
        { content := "vendor", path := "x/vendor/y" }
      < score_record ["vendor"] (classify_query_intent ["vendor"])
        { content := "vendor", path := "z" } := by
  refine ⟨by decide, by decide, ?_⟩
  with_unfolding_all decide

/-- Witness for the amended C8 at a canonical single-token instance: on
the query token `"vendor"`, the record `{content := "vendor", path :=
"docs/vendor.md"}` strictly outranks the same record with path
`"docs/other.md"`; both paths carry identical path, intent, and noise
multipliers. -/
theorem c8_amended_witness :
    score_record ["vendor"] [] { content := "vendor", path := "docs/other.md" }
      < score_record ["vendor"] [] { content := "vendor", path := "docs/vendor.md" } :=
  c8_amended ["vendor"] [] { content := "vendor", path := "docs/vendor.md" }
    "docs/other.md" (by decide) (by decide) (by decide)
    (by with_unfolding_all decide) (by with_unfolding_all decide) (by decide)

lemma find?_none_of_key_notin {consumed : List Match} {seen : List String} {key : String}
    (hcons : ∀ x ∈ consumed, identityKey x.record ≠ "" → identityKey x.record ∈ seen)
    (hks : key ∉ seen) (hki : key ≠ "") :
    consumed.find? (fun x => identityKey x.record == key) = none := by
  rw [List.find?_eq_none]
  intro x hx hbeq
  have heq : identityKey x.record = key := by simpa using hbeq
  have hxne : identityKey x.record ≠ "" := by rw [heq]; exact hki
  have := hcons x hx hxne
  rw [heq] at this
  exact hks this

lemma dedupeGo_spec (tk : Int) (rest : List Match) :
    ∀ (consumed : List Match) (seen : List String) (acc : List Match),
      seen = acc.map (fun m => identityKey m.record) →
      seen.Nodup →
      (∀ k ∈ seen, k ≠ "") →
      (∀ m ∈ acc, consumed.find? (fun x => identityKey x.record == identityKey m.record)
        = some m) →
      (∀ x ∈ consumed, identityKey x.record ≠ "" → identityKey x.record ∈ seen) →
      ((dedupeGo tk rest seen acc).map (fun m => identityKey m.record)).Nodup
      ∧ (∀ m ∈ dedupeGo tk rest seen acc, identityKey m.record ≠ "")
      ∧ (∀ m ∈ dedupeGo tk rest seen acc,
          (consumed ++ rest).find? (fun x => identityKey x.record == identityKey m.record)
            = some m) := by
  induction rest with
  | nil =>
    intro consumed seen acc hseen hnd hne hfirst hcons
    refine ⟨?_, ?_, ?_⟩
    · simp only [dedupeGo, List.map_reverse, List.nodup_reverse]
      rw [← hseen]
      exact hnd
    · intro m hm
      simp only [dedupeGo, List.mem_reverse] at hm
      exact hne _ (by rw [hseen]; exact List.mem_map_of_mem _ hm)
    · intro m hm
      simp only [dedupeGo, List.mem_reverse] at hm
      rw [List.append_nil]
      exact hfirst m hm
  | cons item rest ih =>
    intro consumed seen acc hseen hnd hne hfirst hcons
    simp only [dedupeGo]
    split_ifs with h1 h2
    · have hres := ih (consumed ++ [item]) seen acc hseen hnd hne
        (fun m hm => by rw [List.find?_append, hfirst m hm]; rfl)
        (fun x hx hkey => by
          rcases List.mem_append.mp hx with hx | hx
          · exact hcons x hx hkey
          · rw [List.mem_singleton.mp hx] at hkey ⊢
            rcases h1 with he | hc
            · exact absurd he hkey
            · simpa using hc)
      rwa [show consumed ++ [item] ++ rest = consumed ++ item :: rest by simp] at hres
    · have hki : identityKey item.record ≠ "" := fun e => h1 (Or.inl e)
      have hks : identityKey item.record ∉ seen := fun hmem => h1 (Or.inr (by simpa using hmem))
      refine ⟨?_, ?_, ?_⟩
      · simp only [List.map_reverse, List.nodup_reverse, List.map_cons, List.nodup_cons]
        exact ⟨by rw [← hseen]; exact hks, by rw [← hseen]; exact hnd⟩
      · intro m hm
        simp only [List.mem_reverse, List.mem_cons] at hm
        rcases hm with rfl | hm
        · exact hki
        · exact hne _ (by rw [hseen]; exact List.mem_map_of_mem _ hm)
      · intro m hm
        simp only [List.mem_reverse, List.mem_cons] at hm
        rcases hm with rfl | hm
        · rw [List.find?_append, find?_none_of_key_notin hcons hks hki, Option.none_or]
          exact List.find?_cons_of_pos _ (by simp)
        · rw [List.find?_append, hfirst m hm]
          rfl
    · have hki : identityKey item.record ≠ "" := fun e => h1 (Or.inl e)
      have hks : identityKey item.record ∉ seen := fun hmem => h1 (Or.inr (by simpa using hmem))
      have hres := ih (consumed ++ [item]) (identityKey item.record :: seen) (item :: acc)
        (by simp only [List.map_cons]; rw [hseen])
        (by rw [List.nodup_cons]; exact ⟨hks, hnd⟩)
        (by
          intro k hk
          rcases List.mem_cons.mp hk with rfl | hk
          · exact hki
          · exact hne k hk)
        (by
          intro m hm
          rcases List.mem_cons.mp hm with rfl | hm
          · rw [List.find?_append, find?_none_of_key_notin hcons hks hki, Option.none_or]
            exact List.find?_cons_of_pos _ (by simp)
          · rw [List.find?_append, hfirst m hm]
            rfl)
        (by
          intro x hx hkey
          rcases List.mem_append.mp hx with hx | hx
          · exact List.mem_cons_of_mem _ (hcons x hx hkey)
          · rw [List.mem_singleton.mp hx]
            exact List.mem_cons_self _ _)
      rwa [show consumed ++ [item] ++ rest = consumed ++ item :: rest by simp] at hres

/-- C9: for every match list (sorted or not) and every top-K, the
deduplicated ranking contains no two matches sharing an identity key
(stripped path, else url, else id), and every returned match is the first
occurrence of its key in the input — hence the best-scoring one when the
input is sorted. -/
theorem c9_dedupe_unique_keys_first_kept (ms : List Match) (tk : Int) :
    ((dedupe_matches ms tk).map (fun m => identityKey m.record)).Nodup
    ∧ ∀ m ∈ dedupe_matches ms tk,
        ms.find? (fun x => identityKey x.record == identityKey m.record) = some m := by
  have h := dedupeGo_spec tk ms [] [] [] rfl List.nodup_nil (by simp) (by simp) (by simp)
  exact ⟨h.1, fun m hm => by simpa using h.2.2 m hm⟩

/-- C10: a match whose record has path, url, and id all empty or
whitespace-only (so its identity key strips to the empty string) is
silently omitted — it never appears in the deduplicated output, for every
input list and top-K, even in the leading (highest-scoring) position. -/
theorem c10_empty_key_never_returned (ms : List Match) (tk : Int) (m : Match)
    (hkey : identityKey m.record = "") :
    m ∉ dedupe_matches ms tk := by
  intro hm
  have h := dedupeGo_spec tk ms [] [] [] rfl List.nodup_nil (by simp) (by simp) (by simp)
  exact h.2.1 m hm hkey

/-- Witness for C9: on two matches sharing path `"a"` and one with path
`"b"`, the output keys are distinct and the kept `"b"` match is the first
(here only) `"b"` occurrence of the input. -/
theorem c9_witness :
    ((dedupe_matches [⟨5, { path := "a" }⟩, ⟨4, { path := "a" }⟩, ⟨3, { path := "b" }⟩] 5).map
      (fun m => identityKey m.record)).Nodup
    ∧ ([⟨5, { path := "a" }⟩, ⟨4, { path := "a" }⟩, ⟨3, { path := "b" }⟩] : List Match).find?
        (fun x => identityKey x.record
          == identityKey (⟨3, { path := "b" }⟩ : Match).record) = some ⟨3, { path := "b" }⟩ :=
  ⟨(c9_dedupe_unique_keys_first_kept _ 5).1,
   (c9_dedupe_unique_keys_first_kept _ 5).2 ⟨3, { path := "b" }⟩ (by with_unfolding_all decide)⟩

/-- Witness for C10: the top match with the whitespace-only path `"  "`
has an empty identity key and is dropped even though it is the
highest-scoring match of its list. -/
theorem c10_witness :
    identityKey ({ path := "  " } : Record) = ""
    ∧ (⟨10, { path := "  " }⟩ : Match) ∉ dedupe_matches
        [⟨10, { path := "  " }⟩, ⟨4, { path := "b" }⟩] 3 :=
  ⟨by decide, c10_empty_key_never_returned _ 3 _ (by decide)⟩

/-- C3: for every record collection, query string, source filter, and
top-K limit `K ≥ 0`, the ranked output (i) has exactly
`min(K, number of positive-scoring non-excluded records)` elements,
(ii) is sorted non-increasing by score, and (iii) is stable: for each
score value, the output's matches with that score form a leading part of
the positive-scoring matches with that score in input order. -/
theorem c3_rank_sorted_stable_length (records : List Record) (query : String) (K : Int)
    (sf : Option (List String)) (hK : 0 ≤ K) :
    (rank_records records query K sf).length
        = min K.toNat (positiveMatches records (normalize_query_tokens query)
            (classify_query_intent (normalize_query_tokens query)) sf).length
    ∧ (rank_records records query K sf).Pairwise (fun a b => b.score ≤ a.score)
    ∧ ∀ s : ℚ, ∃ t : List Match,
        (rank_records records query K sf).filter (fun m => decide (m.score = s)) ++ t
          = (positiveMatches records (normalize_query_tokens query)
              (classify_query_intent (normalize_query_tokens query)) sf).filter
              (fun m => decide (m.score = s)) := by
  set pos := positiveMatches records (normalize_query_tokens query)
    (classify_query_intent (normalize_query_tokens query)) sf with hposdef
  have hrank : rank_records records query K sf
      = (pos.mergeSort fun a b => decide (b.score ≤ a.score)).take K.toNat := by
    simp only [rank_records, pyTake, sortDesc, if_pos hK, hposdef]
  have htrans : ∀ (a b c : Match), (decide (b.score ≤ a.score) : Bool)
      → (decide (c.score ≤ b.score) : Bool) → (decide (c.score ≤ a.score) : Bool) := by
    intro a b c h1 h2
    simp only [decide_eq_true_eq] at h1 h2 ⊢
    exact le_trans h2 h1
  have htotal : ∀ (a b : Match),
      (decide (b.score ≤ a.score) || decide (a.score ≤ b.score)) = true := by
    intro a b
    simp only [Bool.or_eq_true, decide_eq_true_eq]
    exact le_total _ _
  refine ⟨?_, ?_, ?_⟩
  · rw [hrank, List.length_take, List.length_mergeSort]
  · rw [hrank]
    have hsorted := List.sorted_mergeSort htrans htotal pos
    exact ((hsorted.sublist (List.take_sublist _ _)).imp
      fun h => by simpa using h)
  · intro s
    have hpw : (pos.filter fun m => decide (m.score = s)).Pairwise
        (fun a b => (decide (b.score ≤ a.score) : Bool)) := by
      apply List.pairwise_of_forall_mem_list
      intro a ha b hb
      have ha' : a.score = s := by simpa using (List.mem_filter.mp ha).2
      have hb' : b.score = s := by simpa using (List.mem_filter.mp hb).2
      simp [ha', hb']
    have hsl : List.Sublist (pos.filter fun m => decide (m.score = s))
        (pos.mergeSort fun a b => decide (b.score ≤ a.score)) :=
      List.sublist_mergeSort htrans htotal hpw (List.filter_sublist pos)
    have hidem : ((pos.filter fun m => decide (m.score = s)).filter
        fun m => decide (m.score = s)) = pos.filter fun m => decide (m.score = s) :=
      List.filter_eq_self.mpr fun a ha => (List.mem_filter.mp ha).2
    have hperm : List.Perm ((pos.mergeSort fun a b => decide (b.score ≤ a.score)).filter
        fun m => decide (m.score = s)) (pos.filter fun m => decide (m.score = s)) :=
      (List.mergeSort_perm pos _).filter _
    have hsl2 := hsl.filter fun m => decide (m.score = s)
    rw [hidem] at hsl2
    have heqfilter : ((pos.mergeSort fun a b => decide (b.score ≤ a.score)).filter
        fun m => decide (m.score = s)) = pos.filter fun m => decide (m.score = s) :=
      (hsl2.eq_of_length hperm.length_eq.symm).symm
    rw [hrank]
    have hpre := (List.take_prefix K.toNat
      (pos.mergeSort fun a b => decide (b.score ≤ a.score))).filter
      fun m => decide (m.score = s)
    rw [heqfilter] at hpre
    obtain ⟨t, ht⟩ := hpre
    exact ⟨t, ht⟩

/-- Witness for C3 at `K = 1` over two positive-scoring records: the
output length equals `min(1, 2) = 1`. -/
theorem c3_witness :
    (rank_records [{ content := "foo" }, { content := "foo foo" }] "foo" 1 none).length
      = min ((1 : Int).toNat)
        (positiveMatches [{ content := "foo" }, { content := "foo foo" }]
          (normalize_query_tokens "foo")
          (classify_query_intent (normalize_query_tokens "foo")) none).length
    ∧ (rank_records [{ content := "foo" }, { content := "foo foo" }] "foo" 1 none).length = 1 :=
  ⟨(c3_rank_sorted_stable_length [{ content := "foo" }, { content := "foo foo" }]
      "foo" 1 none (by norm_num)).1,
   by with_unfolding_all decide⟩
